import Mathlib

/-!
# A shallow embedding of the toy_dns DNS resolver

This file embeds the wire-format codec and resolution logic of the
`toy_dns` Rust crate (files `errors.rs`, `header.rs`, `question.rs`,
`record.rs`, `record_name.rs`, `packet.rs`, `root_servers.rs`,
`query.rs`) and proves properties of the embedding.

Modelling conventions:

* Bytes are `Nat`s; a Rust `&[u8]` buffer is a `List Nat`.  An
  `std::io::Cursor<&[u8]>` is the pair of the (immutable) buffer and a
  position, threaded explicitly: reading functions take `buf` and `pos`
  and return the value together with the advanced position.
* Rust `&str` values (domain names, decoded labels) are modelled by
  their UTF-8 byte sequences (`List Nat`); `String::from_utf8` becomes
  the UTF-8 validity check `isValidUtf8` (a Rust `String` keeps exactly
  the bytes it was built from, so no re-encoding is involved).
* Fallible Rust functions returning `Result<T, DnsError>` become
  functions into `Res T`, which also has an `oom` (out of fuel) value:
  name decompression and the delegation loop recurse without any bound
  in the source, so the embedding threads an explicit fuel and `oom`
  marks the runs on which the source would not have terminated yet.
* The `rand` / `rand_chacha` crates are external collaborators.  A call
  `gen_range(0..n)` on `thread_rng()` is modelled by `draw % n` for a
  draw taken from an explicit entropy argument, and on
  `ChaCha8Rng::seed_from_u64(seed)` by `chaCha seed n % n` for a fixed
  function `chaCha : Nat → Nat → Nat`, reflecting that the seeded
  generator is a pure deterministic function of its seed while the
  thread generator is fresh entropy per call.  The `% n` captures the
  `gen_range` contract that the result lies in the requested range.
* `Cursor::seek(SeekFrom::Start(offset))` never fails in Rust (seeking
  past the end of the buffer is allowed; only subsequent reads fail),
  so the embedding's seek is a plain position update and the source's
  `DecompressSkip` / `DecompressRestore` arms are unreachable.
-/

/-- `errors.rs`: the `DnsError` enumeration. -/
inductive DnsError where
  | ParseResponse
  | ParseId
  | ParseFlag
  | ParseQuestionCount
  | ParseAnswerCount
  | ParseAuthorityCount
  | ParseAdditionalCount
  | ReadByte
  | ReadLength
  | ReadQuestionType
  | ReadQuestionClass
  | ReadRecordType
  | ReadRecordClass
  | ReadRecordTTL
  | ReadRecordDataLength
  | ReadRecordData
  | InvalidByteInName
  | UnrecognizedRecordType
  | SocketBind
  | SocketSend
  | SocketRead
  | DecompressReadByte
  | DecompressSkip
  | DecompressRestore
  | QuerySerialization
  | UnknownDomainName
deriving DecidableEq, Repr

/-- Result of a fallible computation that may also run out of fuel
(`oom` stands for the runs on which the unbounded recursion of the
source has not terminated within the supplied fuel). -/
inductive Res (α : Type) where
  | ok : α → Res α
  | err : DnsError → Res α
  | oom : Res α
deriving DecidableEq, Repr

/-- `record.rs`: the `RecordType` enumeration. -/
inductive RecordType where
  | Invalid
  | A
  | NS
  | AAAA
deriving DecidableEq, Repr

/-- `RecordType::value`. -/
def RecordType.value : RecordType → Nat
  | .Invalid => 0
  | .A => 1
  | .NS => 2
  | .AAAA => 28

/-- `RecordType::from` (a `match` on the numeric wire value). -/
def RecordType.fromValue (recordTypeValue : Nat) : Option RecordType :=
  if recordTypeValue = 0 then some .Invalid
  else if recordTypeValue = 1 then some .A
  else if recordTypeValue = 2 then some .NS
  else if recordTypeValue = 28 then some .AAAA
  else none

/-- `cursor.read_u8()`: the byte at `pos`, advancing the position;
fails (with `None`) at or past the end of the buffer. -/
def readU8 (buf : List Nat) (pos : Nat) : Option (Nat × Nat) :=
  match buf[pos]? with
  | some b => some (b, pos + 1)
  | none => none

/-- `cursor.read_u16::<BigEndian>()`: two bytes combined big-endian. -/
def readU16be (buf : List Nat) (pos : Nat) : Option (Nat × Nat) :=
  match readU8 buf pos with
  | none => none
  | some (b0, pos0) =>
    match readU8 buf pos0 with
    | none => none
    | some (b1, pos1) => some ((b0 <<< 8) ||| b1, pos1)

/-- `cursor.read_u32::<BigEndian>()`: four bytes combined big-endian. -/
def readU32be (buf : List Nat) (pos : Nat) : Option (Nat × Nat) :=
  match readU16be buf pos with
  | none => none
  | some (h, pos0) =>
    match readU16be buf pos0 with
    | none => none
    | some (l, pos1) => some ((h <<< 16) ||| l, pos1)

/-- `cursor.read_exact` into a buffer of `n` bytes: succeeds exactly
when `n` bytes remain. -/
def readExact (buf : List Nat) (n : Nat) (pos : Nat) : Option (List Nat × Nat) :=
  if pos + n ≤ buf.length then some ((buf.drop pos).take n, pos + n) else none

/-- The byte-by-byte UTF-8 validation automaton (RFC 3629 table,
including the overlong and surrogate exclusions).  The state is the
number of continuation bytes still expected together with the allowed
range for the next byte (the first continuation byte of a sequence is
range-restricted by its lead byte; later ones are plain `80..BF`). -/
def utf8Fold : Nat → Nat → Nat → List Nat → Bool
  | 0, _, _, [] => true
  | _ + 1, _, _, [] => false
  | 0, _, _, b :: rest =>
    if b < 0x80 then utf8Fold 0 0 0 rest
    else if 0xC2 ≤ b && b ≤ 0xDF then utf8Fold 1 0x80 0xBF rest
    else if b = 0xE0 then utf8Fold 2 0xA0 0xBF rest
    else if b = 0xED then utf8Fold 2 0x80 0x9F rest
    else if 0xE0 ≤ b && b ≤ 0xEF then utf8Fold 2 0x80 0xBF rest
    else if b = 0xF0 then utf8Fold 3 0x90 0xBF rest
    else if b = 0xF4 then utf8Fold 3 0x80 0x8F rest
    else if 0xF0 ≤ b && b ≤ 0xF4 then utf8Fold 3 0x80 0xBF rest
    else false
  | k + 1, lo, hi, b :: rest =>
    if lo ≤ b && b ≤ hi then utf8Fold k 0x80 0xBF rest
    else false

/-- `String::from_utf8` / `str::from_utf8` succeed exactly on valid
UTF-8: run the validation automaton from its ground state. -/
def isValidUtf8 (l : List Nat) : Bool := utf8Fold 0 0 0 l

/-- Rust's `str::split('.')` on the UTF-8 bytes of a name: split on the
byte 46 (`.`), which in valid UTF-8 occurs only as the `.` character.
Always yields at least one (possibly empty) part. -/
def splitOnDot : List Nat → List (List Nat)
  | [] => [[]]
  | b :: rest =>
    if b = 46 then [] :: splitOnDot rest
    else
      match splitOnDot rest with
      | [] => [[b]]
      | p :: ps => (b :: p) :: ps

/-- `parts.join(".")` at the byte level. -/
def joinDot : List (List Nat) → List Nat
  | [] => []
  | [p] => p
  | p :: ps => p ++ 46 :: joinDot ps

/-- `COMPRESSION_SIGNIFIER` = `0b1100_0000`. -/
def COMPRESSION_SIGNIFIER : Nat := 0xC0

/-- `RecordName::encode`: reject a name with a non-ASCII character,
else split on `.` and, for every part, append one length byte
(`part.len() as u8`) followed by the part's bytes, finishing with a
single `0x00` terminator.  The imperative accumulation loop of the
source is the `foldl`. -/
def RecordName.encode (name : List Nat) : Except DnsError (List Nat) :=
  if name.all (fun b => b < 128) then
    .ok (((splitOnDot name).foldl
            (fun acc part => acc ++ ((part.length % 256) :: part.map (fun b => b % 256))) [])
          ++ [0])
  else .error .InvalidByteInName

/-- The `for _ in 0..length { cursor.read_u8() }` loop collecting one
label's bytes; a failed read is `DnsError::ReadByte`. -/
def readLabelBytes (buf : List Nat) : Nat → Nat → Res (List Nat × Nat)
  | 0, pos => .ok ([], pos)
  | n + 1, pos =>
    match readU8 buf pos with
    | none => .err .ReadByte
    | some (b, pos1) =>
      match readLabelBytes buf n pos1 with
      | .ok (bytes, pos2) => .ok (b :: bytes, pos2)
      | .err e => .err e
      | .oom => .oom

mutual

/-- `RecordName::read_and_advance`: decode a (possibly compressed) name
at `pos`, returning the text bytes (labels joined with `.`) and the
advanced position.  `fuel` bounds the loop / decompression recursion,
which the source leaves unbounded. -/
def RecordName.readAndAdvance (fuel : Nat) (buf : List Nat) (pos : Nat) :
    Res (List Nat × Nat) :=
  match fuel with
  | 0 => .oom
  | f + 1 =>
    match RecordName.nameLoop f buf pos [] with
    | .ok (parts, pos1) => .ok (joinDot parts, pos1)
    | .err e => .err e
    | .oom => .oom
termination_by structural fuel

/-- The `loop` of `RecordName::read_and_advance`: read length bytes
until the `0` terminator, accumulating label parts; a length byte with
a bit of `COMPRESSION_SIGNIFIER` set switches to decompression, whose
result is the final part. -/
def RecordName.nameLoop (fuel : Nat) (buf : List Nat) (pos : Nat)
    (parts : List (List Nat)) : Res (List (List Nat) × Nat) :=
  match fuel with
  | 0 => .oom
  | f + 1 =>
    match readU8 buf pos with
    | none => .err .ReadLength
    | some (len, pos1) =>
      if len = 0 then .ok (parts, pos1)
      else if 0 < len &&& COMPRESSION_SIGNIFIER then
        match RecordName.readAndAdvanceCompressedBytes f (len &&& 63) buf pos1 with
        | .ok (bytes, pos2) =>
          if isValidUtf8 bytes then .ok (parts ++ [bytes], pos2)
          else .err .InvalidByteInName
        | .err e => .err e
        | .oom => .oom
      else
        match readLabelBytes buf len pos1 with
        | .ok (bytes, pos2) =>
          if isValidUtf8 bytes then RecordName.nameLoop f buf pos2 (parts ++ [bytes])
          else .err .InvalidByteInName
        | .err e => .err e
        | .oom => .oom
termination_by structural fuel

/-- `RecordName::read_and_advance_compressed_bytes`: read the second
pointer byte (else `DecompressReadByte`), combine `length`'s low six
bits with it into a 14-bit offset, seek there (`SeekFrom::Start` never
fails, so the source's `DecompressSkip` arm is dead), decode a name at
the offset, and restore the saved position (again, the restore seek
never fails, so `DecompressRestore` is dead). -/
def RecordName.readAndAdvanceCompressedBytes (fuel : Nat) (len : Nat)
    (buf : List Nat) (pos : Nat) : Res (List Nat × Nat) :=
  match fuel with
  | 0 => .oom
  | f + 1 =>
    match readU8 buf pos with
    | none => .err .DecompressReadByte
    | some (nextByte, pos1) =>
      let offset := (len <<< 8) ||| nextByte
      match RecordName.readAndAdvance f buf offset with
      | .ok (result, _) => .ok (result, pos1)
      | .err e => .err e
      | .oom => .oom
termination_by structural fuel

end

/-- `record.rs`: a DNS resource record. -/
structure Record where
  name : List Nat
  rType : RecordType
  rClass : Nat
  ttl : Nat
  data : List Nat
deriving DecidableEq, Repr

/-- `question.rs`: a DNS question. -/
structure Question where
  name : List Nat
  qType : RecordType
  qClass : Nat
deriving DecidableEq, Repr

/-- `header.rs`: the fixed 12-byte DNS message header. -/
structure Header where
  id : Nat
  flags : Nat
  numQuestions : Nat
  numAnswers : Nat
  numAuthorities : Nat
  numAdditionals : Nat
deriving DecidableEq, Repr

/-- `packet.rs`: a decoded DNS packet. -/
structure Packet where
  header : Header
  questions : List Question
  answers : List Record
  authorities : List Record
  additionals : List Record
deriving DecidableEq, Repr

/-- `Header::read_and_advance`: six big-endian 16-bit fields in order,
each with its own failure kind. -/
def Header.readAndAdvance (buf : List Nat) (pos : Nat) : Res (Header × Nat) :=
  match readU16be buf pos with
  | none => .err .ParseId
  | some (id, pos1) =>
    match readU16be buf pos1 with
    | none => .err .ParseFlag
    | some (flags, pos2) =>
      match readU16be buf pos2 with
      | none => .err .ParseQuestionCount
      | some (numQuestions, pos3) =>
        match readU16be buf pos3 with
        | none => .err .ParseAnswerCount
        | some (numAnswers, pos4) =>
          match readU16be buf pos4 with
          | none => .err .ParseAuthorityCount
          | some (numAuthorities, pos5) =>
            match readU16be buf pos5 with
            | none => .err .ParseAdditionalCount
            | some (numAdditionals, pos6) =>
              .ok ({ id := id, flags := flags, numQuestions := numQuestions,
                     numAnswers := numAnswers, numAuthorities := numAuthorities,
                     numAdditionals := numAdditionals }, pos6)

/-- `Question::read_and_advance`: name, then type (rejecting wire
values outside the closed set), then class. -/
def Question.readAndAdvance (fuel : Nat) (buf : List Nat) (pos : Nat) :
    Res (Question × Nat) :=
  match RecordName.readAndAdvance fuel buf pos with
  | .err e => .err e
  | .oom => .oom
  | .ok (name, pos1) =>
    match readU16be buf pos1 with
    | none => .err .ReadQuestionType
    | some (parsedType, pos2) =>
      match RecordType.fromValue parsedType with
      | none => .err .UnrecognizedRecordType
      | some recordType =>
        match readU16be buf pos2 with
        | none => .err .ReadQuestionClass
        | some (parsedClass, pos3) =>
          .ok ({ name := name, qType := recordType, qClass := parsedClass }, pos3)

/-- `Record::read_and_advance`: name, type, class, ttl, data length,
then exactly that many data bytes. -/
def Record.readAndAdvance (fuel : Nat) (buf : List Nat) (pos : Nat) :
    Res (Record × Nat) :=
  match RecordName.readAndAdvance fuel buf pos with
  | .err e => .err e
  | .oom => .oom
  | .ok (recordName, pos1) =>
    match readU16be buf pos1 with
    | none => .err .ReadRecordType
    | some (parsedType, pos2) =>
      match RecordType.fromValue parsedType with
      | none => .err .UnrecognizedRecordType
      | some recordType =>
        match readU16be buf pos2 with
        | none => .err .ReadRecordClass
        | some (parsedClass, pos3) =>
          match readU32be buf pos3 with
          | none => .err .ReadRecordTTL
          | some (parsedTtl, pos4) =>
            match readU16be buf pos4 with
            | none => .err .ReadRecordDataLength
            | some (parsedDataLength, pos5) =>
              match readExact buf parsedDataLength pos5 with
              | none => .err .ReadRecordData
              | some (data, pos6) =>
                .ok ({ name := recordName, rType := recordType,
                       rClass := parsedClass, ttl := parsedTtl, data := data }, pos6)

/-- One of the `for _ in 0..count` decode loops of `Packet::parse`:
decode `count` consecutive elements with `rd`, collecting them in
order and propagating the first failure. -/
def readCount {α : Type} (rd : Nat → Res (α × Nat)) : Nat → Nat → Res (List α × Nat)
  | 0, pos => .ok ([], pos)
  | n + 1, pos =>
    match rd pos with
    | .err e => .err e
    | .oom => .oom
    | .ok (a, pos1) =>
      match readCount rd n pos1 with
      | .ok (rest, pos2) => .ok (a :: rest, pos2)
      | .err e => .err e
      | .oom => .oom

/-- `Packet::parse`: header, then `num_questions` questions, then
`num_answers`, `num_authorities`, `num_additionals` records, in that
order, from a cursor starting at offset 0. -/
def Packet.parse (fuel : Nat) (buf : List Nat) : Res Packet :=
  match Header.readAndAdvance buf 0 with
  | .err e => .err e
  | .oom => .oom
  | .ok (header, pos0) =>
    match readCount (Question.readAndAdvance fuel buf) header.numQuestions pos0 with
    | .err e => .err e
    | .oom => .oom
    | .ok (questions, pos1) =>
      match readCount (Record.readAndAdvance fuel buf) header.numAnswers pos1 with
      | .err e => .err e
      | .oom => .oom
      | .ok (answers, pos2) =>
        match readCount (Record.readAndAdvance fuel buf) header.numAuthorities pos2 with
        | .err e => .err e
        | .oom => .oom
        | .ok (authorities, pos3) =>
          match readCount (Record.readAndAdvance fuel buf) header.numAdditionals pos3 with
          | .err e => .err e
          | .oom => .oom
          | .ok (additionals, _) =>
            .ok { header := header, questions := questions, answers := answers,
                  authorities := authorities, additionals := additionals }

/-- `DnsRecordGetters::get_first_a_record` on `[Record]`:
`iter().filter(r.r_type == A).next()`. -/
def getFirstARecord (records : List Record) : Option Record :=
  (records.filter (fun record => record.rType == RecordType.A)).head?

/-- `DnsRecordGetters::get_first_ns_record` on `[Record]`. -/
def getFirstNsRecord (records : List Record) : Option Record :=
  (records.filter (fun record => record.rType == RecordType.NS)).head?

/-- `Record::ip_address`: the data bytes rendered as decimal numbers
joined with `.`. -/
def Record.ipAddress (r : Record) : String :=
  String.intercalate "." (r.data.map (fun datum => toString datum))

/-- `root_servers.rs`: the `ROOT_SERVERS_AND_IPS` ordered table of
(IP address, hostname) pairs, in source order. -/
def ROOT_SERVERS_AND_IPS : List (String × String) :=
  [ ("198.41.0.4", "a.root-servers.net"),
    ("192.33.4.12", "c.root-servers.net"),
    ("199.7.91.13", "d.root-servers.net"),
    ("192.203.230.10", "e.root-servers.net"),
    ("192.5.5.241", "f.root-servers.net"),
    ("192.112.36.4", "g.root-servers.net"),
    ("198.97.190.53", "h.root-servers.net"),
    ("192.36.148.17", "i.root-servers.net"),
    ("192.58.128.30", "j.root-servers.net"),
    ("193.0.14.129", "k.root-servers.net"),
    ("199.7.83.42", "l.root-servers.net"),
    ("202.12.27.33", "m.root-servers.net") ]

/-- `RootServer::random`: pick an index with `gen_range(0..len)` —
from thread entropy (`threadDraw`) when unseeded, from the
deterministic seeded generator (`chaCha`) when seeded — and take the
`nth` table entry.  `gen_range` guarantees the index is in range (the
`% n`), so the source's `unwrap` cannot panic; `getD` supplies the
corresponding never-used default. -/
def RootServer.random (threadDraw : Nat) (chaCha : Nat → Nat → Nat)
    (randomSeed : Option Nat) : String × String :=
  let n := ROOT_SERVERS_AND_IPS.length
  let randomIndex :=
    match randomSeed with
    | none => threadDraw % n
    | some value => chaCha value n % n
  ROOT_SERVERS_AND_IPS.getD randomIndex ("", "")

/-- `CLASS_IN` from `query.rs`. -/
def CLASS_IN : Nat := 1

/-- A 16-bit value written big-endian by `write_u16::<BigEndian>`. -/
def u16be (n : Nat) : List Nat := [(n >>> 8) % 256, n % 256]

/-- `Query::serialize`: draw a 16-bit id (`gen_range(0..=u16::MAX)`,
thread entropy or seeded generator), build the header with
`num_questions = 1` and all other fields 0, encode the question name
(propagating its error), and write header then question big-endian.
The in-memory `Vec` writes cannot fail, so the source's per-write
`QuerySerialization` arms are dead. -/
def Query.serialize (chaCha : Nat → Nat → Nat) (idDraw : Nat)
    (randSeed : Option Nat) (domainName : List Nat) (recordType : RecordType) :
    Except DnsError (List Nat) :=
  let randomId :=
    match randSeed with
    | none => idDraw % 65536
    | some value => chaCha value 65536 % 65536
  match RecordName.encode domainName with
  | .error e => .error e
  | .ok nameBytes =>
    .ok (u16be randomId ++ u16be 0 ++ u16be 1 ++ u16be 0 ++ u16be 0 ++ u16be 0
         ++ nameBytes ++ u16be recordType.value ++ u16be CLASS_IN)

/-- A transport interaction: an attempted `socket.send` (with the
serialized query bytes and the `ip:53` destination) or an attempted
`socket.recv_from`. -/
inductive SocketEvent where
  | send (bytes : List Nat) (addr : String)
  | recv
deriving DecidableEq, Repr

/-- The external world a resolution run consumes: per-call thread-RNG
draws for query ids and root picks, and the outcome of each successive
transport send (`true` = delivered) and receive (`some buf` = the
filled receive buffer). -/
structure Env where
  idDraws : List Nat
  rootDraws : List Nat
  sendResults : List Bool
  recvResults : List (Option (List Nat))
deriving Repr

/-- `Query::perform`: serialize (mapping any failure to
`QuerySerialization` before touching the socket), send to the server
(else `SocketSend`), receive into the fixed buffer (else `SocketRead`),
and parse the received buffer.  Returns the result, the transport
events attempted, and the remaining world. -/
def Query.perform (fuel : Nat) (chaCha : Nat → Nat → Nat) (domainName : List Nat)
    (recordType : RecordType) (randSeed : Option Nat) (dnsServerIp : String)
    (env : Env) : Res Packet × List SocketEvent × Env :=
  let (idDraw, env1) :=
    match randSeed with
    | none => (env.idDraws.headD 0, { env with idDraws := env.idDraws.tail })
    | some _ => (0, env)
  match Query.serialize chaCha idDraw randSeed domainName recordType with
  | .error _ => (.err .QuerySerialization, [], env1)
  | .ok queryBytes =>
    let addr := dnsServerIp ++ ":53"
    match env1.sendResults with
    | [] => (.err .SocketSend, [.send queryBytes addr], { env1 with sendResults := [] })
    | sendOk :: restSends =>
      let env2 := { env1 with sendResults := restSends }
      if sendOk then
        match env2.recvResults with
        | [] => (.err .SocketRead, [.send queryBytes addr, .recv],
                 { env2 with recvResults := [] })
        | recvRes :: restRecvs =>
          let env3 := { env2 with recvResults := restRecvs }
          match recvRes with
          | none => (.err .SocketRead, [.send queryBytes addr, .recv], env3)
          | some receivedBuf =>
            (Packet.parse fuel receivedBuf, [.send queryBytes addr, .recv], env3)
      else (.err .SocketSend, [.send queryBytes addr], env2)

/-- The checks the delegation loop applies, in source order, to a
successfully decoded packet. -/
inductive ResolveStep where
  | success (packet : Packet)
  | glue (record : Record)
  | delegate (record : Record)
  | failUnknown
deriving DecidableEq, Repr

/-- The `Ok(packet)` arm of the loop in `Query::resolve_with_depth`:
return the packet if the answers hold an A record, else follow a glue
A record from the additionals, else follow the first NS record of the
authorities, else fail with `UnknownDomainName`. -/
def resolveStep (packet : Packet) : ResolveStep :=
  if (getFirstARecord packet.answers).isSome then .success packet
  else
    match getFirstARecord packet.additionals with
    | some newNameServer => .glue newNameServer
    | none =>
      match getFirstNsRecord packet.authorities with
      | some nsRecord => .delegate nsRecord
      | none => .failUnknown

/-- The root pick at the head of `Query::resolve_with_depth`:
`RootServer::random(rand_seed)`, consuming one thread draw exactly when
unseeded. -/
def rootPickStep (chaCha : Nat → Nat → Nat) (randSeed : Option Nat) (env : Env) :
    (String × String) × Env :=
  match randSeed with
  | none => (RootServer.random (env.rootDraws.headD 0) chaCha randSeed,
             { env with rootDraws := env.rootDraws.tail })
  | some _ => (RootServer.random 0 chaCha randSeed, env)

/-- The `loop` of `Query::resolve_with_depth`, with the current
authority's IP as loop state (the hostname is used only for log
output and is not modelled).  `fuel` bounds both the loop and the
delegation recursion, which the source leaves unbounded.  The
`delegate` arm decodes the NS hostname from the record's own data
buffer, resolves it as a fresh full resolution (new root pick — the
body of `Query::resolve_with_depth` again), takes the first A record
of that resolution's answers (else `UnknownDomainName`), and loops
with its address. -/
def Query.resolveLoop (fuel : Nat) (chaCha : Nat → Nat → Nat) (domainName : List Nat)
    (recordType : RecordType) (randSeed : Option Nat) (nameServerIp : String)
    (env : Env) : Res Packet × List SocketEvent × Env :=
  match fuel with
  | 0 => (.oom, [], env)
  | f + 1 =>
    match Query.perform f chaCha domainName recordType randSeed nameServerIp env with
    | (.err e, evs, env1) => (.err e, evs, env1)
    | (.oom, evs, env1) => (.oom, evs, env1)
    | (.ok packet, evs, env1) =>
      match resolveStep packet with
      | .success p => (.ok p, evs, env1)
      | .glue newNameServer =>
        let (res, evs2, env2) :=
          Query.resolveLoop f chaCha domainName recordType randSeed
            newNameServer.ipAddress env1
        (res, evs ++ evs2, env2)
      | .delegate nsRecord =>
        match RecordName.readAndAdvance f nsRecord.data 0 with
        | .err e => (.err e, evs, env1)
        | .oom => (.oom, evs, env1)
        | .ok (nameserverNameBytes, _) =>
          if isValidUtf8 nameserverNameBytes then
            let (entry, env2) := rootPickStep chaCha randSeed env1
            match Query.resolveLoop f chaCha nameserverNameBytes RecordType.A
                    randSeed entry.1 env2 with
            | (.err e, evs2, env3) => (.err e, evs ++ evs2, env3)
            | (.oom, evs2, env3) => (.oom, evs ++ evs2, env3)
            | (.ok nameServerResolvedPacket, evs2, env3) =>
              match getFirstARecord nameServerResolvedPacket.answers with
              | none => (.err .UnknownDomainName, evs ++ evs2, env3)
              | some nameServerARecord =>
                let (res, evs3, env4) :=
                  Query.resolveLoop f chaCha domainName recordType randSeed
                    nameServerARecord.ipAddress env3
                (res, evs ++ evs2 ++ evs3, env4)
          else (.err .InvalidByteInName, evs, env1)
      | .failUnknown => (.err .UnknownDomainName, evs, env1)

/-- `Query::resolve_with_depth` (and `Query::resolve`, which calls it
at depth 0): pick a random root server as the starting authority and
run the delegation loop.  The recursion depth argument of the source
is used only for log indentation and is not modelled. -/
def Query.resolveWithDepth (fuel : Nat) (chaCha : Nat → Nat → Nat)
    (domainName : List Nat) (recordType : RecordType) (randSeed : Option Nat)
    (env : Env) : Res Packet × List SocketEvent × Env :=
  let (entry, env1) := rootPickStep chaCha randSeed env
  Query.resolveLoop fuel chaCha domainName recordType randSeed entry.1 env1

/-- A packet whose answers hold exactly one AAAA record (and nothing
else anywhere): a response that fully answers an AAAA query. -/
def aaaaAnswerPacket : Packet :=
  { header := { id := 0, flags := 0, numQuestions := 0, numAnswers := 1,
                numAuthorities := 0, numAdditionals := 0 },
    questions := [],
    answers := [{ name := [], rType := RecordType.AAAA, rClass := 1, ttl := 0,
                  data := [0, 0, 0, 0, 0, 0, 0, 0, 0, 0, 0, 0, 0, 0, 0, 0] }],
    authorities := [],
    additionals := [] }

/-- A packet whose answers hold exactly one A record. -/
def aAnswerPacket : Packet :=
  { header := { id := 0, flags := 0, numQuestions := 0, numAnswers := 1,
                numAuthorities := 0, numAdditionals := 0 },
    questions := [],
    answers := [{ name := [], rType := RecordType.A, rClass := 1, ttl := 0,
                  data := [1, 2, 3, 4] }],
    authorities := [],
    additionals := [] }

/-- The amended C7 byte layout, written from the amended claim's words:
split on `.` and, for every part — empty parts included — one length
byte (the part's byte length as `u8`) followed by the part's bytes,
then a single `0x00` terminator. -/
def encodeEveryPartLayout (name : List Nat) : List Nat :=
  ((splitOnDot name).map
      (fun part => (part.length % 256) :: part.map (fun b => b % 256))).flatten ++ [0]

/-! ## Helper lemmas -/

/-- `getD` at an in-range index is a member of the list. -/
theorem getD_mem_of_lt {α : Type} (l : List α) (i : Nat) (d : α) (h : i < l.length) :
    l.getD i d ∈ l := by
  have hd : l.getD i d = l[i] := by simp [List.getD, List.getElem?_eq_getElem h]
  rw [hd]
  exact l.getElem_mem h

/-! ## Claim theorems -/

/-- Claim C9: with a fixed seed, the root-server selector returns the
same (IP, hostname) table entry on any two invocations: the seeded
generator is a pure function of the seed (the same `chaCha` across
invocations), and the seeded branch ignores the per-call thread
entropy draw, the only quantity varying between invocations. -/
theorem c9_seeded_pick_deterministic (chaCha : Nat → Nat → Nat) (seed t1 t2 : Nat) :
    RootServer.random t1 chaCha (some seed) = RootServer.random t2 chaCha (some seed) := rfl

/-- Claim C5, what actually holds of the code: the fixed ordered
root-server table has 12 entries, not the 13 of the claim
(`b.root-servers.net` is absent from the source table), and the random
pick — seeded or not — always returns an entry of the table. -/
theorem c5_table_size_and_membership :
    ROOT_SERVERS_AND_IPS.length = 12
  ∧ ∀ (threadDraw : Nat) (chaCha : Nat → Nat → Nat) (seed : Option Nat),
      RootServer.random threadDraw chaCha seed ∈ ROOT_SERVERS_AND_IPS := by
  refine ⟨rfl, ?_⟩
  intro threadDraw chaCha seed
  unfold RootServer.random
  cases seed
  · exact getD_mem_of_lt _ _ _ (Nat.mod_lt _ (by decide))
  · exact getD_mem_of_lt _ _ _ (Nat.mod_lt _ (by decide))

/-- Claim C4, evaluated at the failing input: decoding the 2-byte
buffer `[0xC0, 0x02]` at position 0 meets a compression pointer whose
offset 2 lies outside the buffer, and the decode fails with
`ReadLength` — the truncated-buffer read error produced by the nested
decode at the out-of-range offset — not with `DecompressSkip`, because
`Cursor::seek(SeekFrom::Start(..))` never fails. -/
theorem c4_out_of_range_pointer_eval :
    RecordName.readAndAdvance 5 [192, 2] 0 = Res.err DnsError.ReadLength
  ∧ (RecordName.readAndAdvance 5 [192, 2] 0 == Res.err DnsError.DecompressSkip) = false
  ∧ (RecordName.readAndAdvance 5 [192, 2] 0 == Res.err DnsError.DecompressRestore) = false := by
  refine ⟨rfl, rfl, rfl⟩

/-- Claim C3, counterexample: parsing a zero-length buffer does not
succeed with an empty packet — it fails with `ParseId` (the header id
cannot be read), as the source's own
`test_parsing_packet_with_no_data_should_fail` asserts. -/
theorem c3_empty_buffer_counterexample :
    Packet.parse 1 [] = Res.err DnsError.ParseId
  ∧ ∀ (p : Packet), (Packet.parse 1 [] == Res.ok p) = false := by
  refine ⟨rfl, ?_⟩
  intro p
  rfl

/-- Claim C3 as amended: a 12-byte buffer that is exactly a header
whose four section counts are all zero parses successfully, for any
fuel, to a packet with the decoded id and flags and all four sequences
empty; a zero-length buffer instead fails with `ParseId`. -/
theorem c3_header_only_parse (fuel b0 b1 b2 b3 : Nat) :
    Packet.parse fuel [b0, b1, b2, b3, 0, 0, 0, 0, 0, 0, 0, 0] =
      Res.ok { header := { id := (b0 <<< 8) ||| b1, flags := (b2 <<< 8) ||| b3,
                           numQuestions := 0, numAnswers := 0,
                           numAuthorities := 0, numAdditionals := 0 },
               questions := [], answers := [], authorities := [], additionals := [] }
  ∧ Packet.parse fuel [] = Res.err DnsError.ParseId := by
  refine ⟨?_, rfl⟩
  simp [Packet.parse, Header.readAndAdvance, readU16be, readU8, readCount]

/-- Claim C6: record-type decode is total and closed.  Wire values 0,
1, 2, 28 decode to Invalid, A, NS, AAAA respectively; every other
value has no decoding, and once the preceding name decode and the
16-bit type read succeed with such a value, both Question decode and
Record decode fail with `UnrecognizedRecordType`. -/
theorem c6_record_type_total_closed (v : Nat)
    (h0 : v ≠ 0) (h1 : v ≠ 1) (h2 : v ≠ 2) (h28 : v ≠ 28) :
    RecordType.fromValue 0 = some RecordType.Invalid
  ∧ RecordType.fromValue 1 = some RecordType.A
  ∧ RecordType.fromValue 2 = some RecordType.NS
  ∧ RecordType.fromValue 28 = some RecordType.AAAA
  ∧ RecordType.fromValue v = none
  ∧ (∀ (fuel pos pos1 pos2 : Nat) (buf nm : List Nat),
      RecordName.readAndAdvance fuel buf pos = Res.ok (nm, pos1) →
      readU16be buf pos1 = some (v, pos2) →
      Question.readAndAdvance fuel buf pos = Res.err DnsError.UnrecognizedRecordType)
  ∧ (∀ (fuel pos pos1 pos2 : Nat) (buf nm : List Nat),
      RecordName.readAndAdvance fuel buf pos = Res.ok (nm, pos1) →
      readU16be buf pos1 = some (v, pos2) →
      Record.readAndAdvance fuel buf pos = Res.err DnsError.UnrecognizedRecordType) := by
  have hnone : RecordType.fromValue v = none := by
    unfold RecordType.fromValue
    rw [if_neg h0, if_neg h1, if_neg h2, if_neg h28]
  refine ⟨rfl, rfl, rfl, rfl, hnone, ?_, ?_⟩
  · intro fuel pos pos1 pos2 buf nm hname hread
    unfold Question.readAndAdvance
    rw [hname]
    simp only [hread, hnone]
  · intro fuel pos pos1 pos2 buf nm hname hread
    unfold Record.readAndAdvance
    rw [hname]
    simp only [hread, hnone]

/-- Claim C6 witness: the unknown wire value 3, read from the concrete
buffer `[0, 0, 3]` (empty name, then type bytes 0 and 3), makes both
decoders fail with `UnrecognizedRecordType`. -/
theorem c6_record_type_witness :
    Question.readAndAdvance 2 [0, 0, 3] 0 = Res.err DnsError.UnrecognizedRecordType
  ∧ Record.readAndAdvance 2 [0, 0, 3] 0 = Res.err DnsError.UnrecognizedRecordType
  ∧ RecordType.fromValue 3 = none := by
  obtain ⟨-, -, -, -, hnone, hq, hr⟩ :=
    c6_record_type_total_closed 3 (by decide) (by decide) (by decide) (by decide)
  exact ⟨hq 2 0 1 3 [0, 0, 3] [] (by decide) (by decide),
         hr 2 0 1 3 [0, 0, 3] [] (by decide) (by decide), hnone⟩

/-- Claim C1, counterexample: a response whose answers hold exactly one
record of the requested type AAAA does not make the delegation loop
declare success — the loop only ever looks for an A record in the
answers, so it falls through to `UnknownDomainName` here, although the
claim (instantiated at requested type AAAA) says resolution succeeds
and returns the packet. -/
theorem c1_requested_type_counterexample :
    aaaaAnswerPacket.answers.map Record.rType = [RecordType.AAAA]
  ∧ resolveStep aaaaAnswerPacket = ResolveStep.failUnknown
  ∧ (resolveStep aaaaAnswerPacket == ResolveStep.success aaaaAnswerPacket) = false := by
  exact ⟨rfl, by decide, by decide⟩

/-- Claim C1 as amended: the delegation loop's packet evaluation
declares success — returning exactly the packet it evaluated — if and
only if the answers section contains at least one record of type A
(the record the source fetches being the first such record in section
order), regardless of the requested record type. -/
theorem c1_success_iff_answers_have_a_record (p : Packet) :
    (resolveStep p = ResolveStep.success p ↔ ∃ r ∈ p.answers, r.rType = RecordType.A)
  ∧ (∀ q, resolveStep p = ResolveStep.success q → q = p) := by
  have hiff : (getFirstARecord p.answers).isSome = true ↔
      ∃ r ∈ p.answers, r.rType = RecordType.A := by
    unfold getFirstARecord
    rw [List.head?_isSome]
    constructor
    · intro h
      obtain ⟨r, hr⟩ := List.exists_mem_of_ne_nil _ h
      have hm := List.mem_filter.mp hr
      exact ⟨r, hm.1, by simpa using hm.2⟩
    · rintro ⟨r, hrmem, hrA⟩ hnil
      have hm : r ∈ List.filter (fun record => record.rType == RecordType.A) p.answers :=
        List.mem_filter.mpr ⟨hrmem, by simp [hrA]⟩
      simp [hnil] at hm
  unfold resolveStep
  by_cases h : (getFirstARecord p.answers).isSome = true
  · rw [if_pos h]
    exact ⟨⟨fun _ => hiff.mp h, fun _ => rfl⟩, fun q hq => (ResolveStep.success.inj hq).symm⟩
  · rw [if_neg h]
    have hnex : ¬ ∃ r ∈ p.answers, r.rType = RecordType.A := fun hex => h (hiff.mpr hex)
    cases hadd : getFirstARecord p.additionals
    · cases hauth : getFirstNsRecord p.authorities
      · exact ⟨⟨fun hs => by simp at hs, fun hex => absurd hex hnex⟩,
               fun q hq => by simp at hq⟩
      · exact ⟨⟨fun hs => by simp at hs, fun hex => absurd hex hnex⟩,
               fun q hq => by simp at hq⟩
    · exact ⟨⟨fun hs => by simp at hs, fun hex => absurd hex hnex⟩,
             fun q hq => by simp at hq⟩

/-- Claim C1 witness: a packet with one A answer is declared a success
and returned whole. -/
theorem c1_success_witness :
    resolveStep aAnswerPacket = ResolveStep.success aAnswerPacket := by
  exact (c1_success_iff_answers_have_a_record aAnswerPacket).1.mpr
    ⟨{ name := [], rType := RecordType.A, rClass := 1, ttl := 0, data := [1, 2, 3, 4] },
     by decide, rfl⟩

/-- Folding block-appends from an empty accumulator is the flattened
map of blocks. -/
theorem foldl_append_eq_flatten {α β : Type} (g : α → List β) (l : List α) (acc : List β) :
    l.foldl (fun a x => a ++ g x) acc = acc ++ (l.map g).flatten := by
  induction l generalizing acc with
  | nil => simp
  | cons x xs ih => simp [ih, List.append_assoc]

/-- Claim C7, counterexample: the name `a.` (bytes `[97, 46]`) has one
empty part after the split, and the encoder emits `[1, 97, 0, 0]` — a
`0x00` length byte for the empty part followed by the terminator — not
the `[1, 97, 0]` the claim's "each non-empty part only" would give. -/
theorem c7_empty_part_counterexample :
    RecordName.encode [97, 46] = Except.ok [1, 97, 0, 0]
  ∧ (([1, 97, 0, 0] : List Nat) == [1, 97, 0]) = false := by
  exact ⟨rfl, by decide⟩

/-- Claim C7 as amended: for every ASCII input name, the encoder splits
on `.` and emits, for every part — empty parts included — one length
byte (the part's byte length as `u8`) followed by the part's bytes,
finishing with a single `0x00` terminator; an empty part thus
contributes exactly one `0x00` byte. -/
theorem c7_every_part_layout (name : List Nat)
    (hascii : name.all (fun b => b < 128) = true) :
    RecordName.encode name = Except.ok (encodeEveryPartLayout name) := by
  unfold RecordName.encode encodeEveryPartLayout
  rw [if_pos hascii, foldl_append_eq_flatten]
  simp

/-- Claim C7 witness: the amended layout at the concrete name `a.`. -/
theorem c7_every_part_layout_witness :
    RecordName.encode [97, 46] = Except.ok (encodeEveryPartLayout [97, 46])
  ∧ encodeEveryPartLayout [97, 46] = [1, 97, 0, 0] := by
  exact ⟨c7_every_part_layout [97, 46] (by decide), by decide⟩

/-- One-step unfolding of `RecordName.nameLoop` at positive fuel. -/
theorem nameLoop_succ (f : Nat) (buf : List Nat) (pos : Nat) (parts : List (List Nat)) :
    RecordName.nameLoop (f + 1) buf pos parts =
      match readU8 buf pos with
      | none => Res.err DnsError.ReadLength
      | some (len, pos1) =>
        if len = 0 then Res.ok (parts, pos1)
        else if 0 < len &&& COMPRESSION_SIGNIFIER then
          match RecordName.readAndAdvanceCompressedBytes f (len &&& 63) buf pos1 with
          | Res.ok (bytes, pos2) =>
            if isValidUtf8 bytes then Res.ok (parts ++ [bytes], pos2)
            else Res.err DnsError.InvalidByteInName
          | Res.err e => Res.err e
          | Res.oom => Res.oom
        else
          match readLabelBytes buf len pos1 with
          | Res.ok (bytes, pos2) =>
            if isValidUtf8 bytes then RecordName.nameLoop f buf pos2 (parts ++ [bytes])
            else Res.err DnsError.InvalidByteInName
          | Res.err e => Res.err e
          | Res.oom => Res.oom := rfl

/-- One-step unfolding of `RecordName.readAndAdvance` at positive fuel. -/
theorem readAndAdvance_succ (f : Nat) (buf : List Nat) (pos : Nat) :
    RecordName.readAndAdvance (f + 1) buf pos =
      match RecordName.nameLoop f buf pos [] with
      | Res.ok (parts, pos1) => Res.ok (joinDot parts, pos1)
      | Res.err e => Res.err e
      | Res.oom => Res.oom := rfl

/-- One step of the UTF-8 automaton from the ground state on an ASCII
byte just recurses on the tail. -/
theorem utf8Fold_cons_ascii (b : Nat) (rest : List Nat) (hb : b < 128) :
    utf8Fold 0 0 0 (b :: rest) = utf8Fold 0 0 0 rest := by
  have step : utf8Fold 0 0 0 (b :: rest) =
      (if b < 0x80 then utf8Fold 0 0 0 rest
      else if 0xC2 ≤ b && b ≤ 0xDF then utf8Fold 1 0x80 0xBF rest
      else if b = 0xE0 then utf8Fold 2 0xA0 0xBF rest
      else if b = 0xED then utf8Fold 2 0x80 0x9F rest
      else if 0xE0 ≤ b && b ≤ 0xEF then utf8Fold 2 0x80 0xBF rest
      else if b = 0xF0 then utf8Fold 3 0x90 0xBF rest
      else if b = 0xF4 then utf8Fold 3 0x80 0x8F rest
      else if 0xF0 ≤ b && b ≤ 0xF4 then utf8Fold 3 0x80 0xBF rest
      else false) := rfl
  rw [step, if_pos hb]

/-- A list of ASCII bytes is valid UTF-8. -/
theorem isValidUtf8_of_ascii (l : List Nat) (h : ∀ b ∈ l, b < 128) :
    isValidUtf8 l = true := by
  unfold isValidUtf8
  induction l with
  | nil => rfl
  | cons b rest ih =>
    rw [utf8Fold_cons_ascii b rest (h b (by simp))]
    exact ih (fun x hx => h x (by simp [hx]))

/-- A literal label length (at most 63) has no compression bit set. -/
theorem land_compression_eq_zero (n : Nat) (h : n ≤ 63) :
    n &&& COMPRESSION_SIGNIFIER = 0 := by
  have hball : ∀ m, m < 64 → m &&& COMPRESSION_SIGNIFIER = 0 := by decide
  exact hball n (by omega)

/-- Reading one byte at the juncture of a known prefix. -/
theorem readU8_append_cons (pre : List Nat) (b : Nat) (post : List Nat) :
    readU8 (pre ++ b :: post) pre.length = some (b, pre.length + 1) := by
  unfold readU8
  rw [List.getElem?_append_right (Nat.le_refl _)]
  simp

/-- Reading exactly a segment's length of bytes after a known prefix
yields the segment. -/
theorem readLabelBytes_exact (seg : List Nat) : ∀ (pre post : List Nat),
    readLabelBytes (pre ++ seg ++ post) seg.length pre.length
      = Res.ok (seg, pre.length + seg.length) := by
  induction seg with
  | nil => intro pre post; rfl
  | cons b seg ih =>
    intro pre post
    have hbuf : pre ++ (b :: seg) ++ post = pre ++ b :: (seg ++ post) := by simp
    have hb : readU8 (pre ++ (b :: seg) ++ post) pre.length = some (b, pre.length + 1) := by
      rw [hbuf]; exact readU8_append_cons pre b (seg ++ post)
    have ih2 := ih (pre ++ [b]) post
    have hbuf2 : (pre ++ [b]) ++ seg ++ post = pre ++ (b :: seg) ++ post := by simp
    have hlen2 : (pre ++ [b]).length = pre.length + 1 := by simp
    rw [hbuf2, hlen2] at ih2
    show readLabelBytes (pre ++ (b :: seg) ++ post) (seg.length + 1) pre.length
      = Res.ok (b :: seg, pre.length + (seg.length + 1))
    unfold readLabelBytes
    rw [hb]
    simp only [ih2]
    have : pre.length + 1 + seg.length = pre.length + (seg.length + 1) := by omega
    rw [this]

/-- `splitOnDot` never returns an empty list of parts. -/
theorem splitOnDot_ne_nil (l : List Nat) : splitOnDot l ≠ [] := by
  cases l with
  | nil => simp [splitOnDot]
  | cons b rest =>
    unfold splitOnDot
    by_cases hb : b = 46
    · simp [hb]
    · rw [if_neg hb]
      cases h : splitOnDot rest <;> simp

/-- Joining with `.` undoes splitting on `.`. -/
theorem joinDot_splitOnDot (l : List Nat) : joinDot (splitOnDot l) = l := by
  induction l with
  | nil => rfl
  | cons b rest ih =>
    unfold splitOnDot
    by_cases hb : b = 46
    · rw [if_pos hb]
      obtain ⟨p, ps, hps⟩ : ∃ p ps, splitOnDot rest = p :: ps := by
        cases h : splitOnDot rest with
        | nil => exact absurd h (splitOnDot_ne_nil rest)
        | cons p ps => exact ⟨p, ps, rfl⟩
      rw [hps]
      rw [hps] at ih
      show [] ++ 46 :: joinDot (p :: ps) = b :: rest
      rw [ih, hb]
      rfl
    · rw [if_neg hb]
      obtain ⟨p, ps, hps⟩ : ∃ p ps, splitOnDot rest = p :: ps := by
        cases h : splitOnDot rest with
        | nil => exact absurd h (splitOnDot_ne_nil rest)
        | cons p ps => exact ⟨p, ps, rfl⟩
      rw [hps]
      rw [hps] at ih
      cases ps with
      | nil =>
        show b :: p = b :: rest
        rw [show joinDot [p] = p from rfl] at ih
        rw [ih]
      | cons q qs =>
        show (b :: p) ++ 46 :: joinDot (q :: qs) = b :: rest
        rw [show joinDot (p :: q :: qs) = p ++ 46 :: joinDot (q :: qs) from rfl] at ih
        rw [List.cons_append, ih]

/-- A byte of a part is a byte of the joined list. -/
theorem mem_joinDot (parts : List (List Nat)) (p : List Nat) (b : Nat)
    (hp : p ∈ parts) (hb : b ∈ p) : b ∈ joinDot parts := by
  induction parts with
  | nil => simp at hp
  | cons q qs ih =>
    cases qs with
    | nil =>
      simp at hp
      show b ∈ q
      rw [← hp]
      exact hb
    | cons r rs =>
      show b ∈ q ++ 46 :: joinDot (r :: rs)
      rcases List.mem_cons.mp hp with h | h
      · subst h; exact List.mem_append_left _ hb
      · exact List.mem_append_right _ (List.mem_cons_of_mem _ (ih h))

/-- Every byte of every part is a byte of the split input. -/
theorem mem_of_mem_splitOnDot (l p : List Nat) (b : Nat)
    (hp : p ∈ splitOnDot l) (hb : b ∈ p) : b ∈ l := by
  have hj := mem_joinDot (splitOnDot l) p b hp hb
  rwa [joinDot_splitOnDot] at hj

/-- Decoding the label-encoded form of `parts` (each part non-empty,
at most 63 bytes, ASCII) accumulates exactly `parts` and stops at the
terminator, wherever the encoding sits in the buffer. -/
theorem nameLoop_encoded (parts : List (List Nat)) :
    ∀ (pre post : List Nat) (acc : List (List Nat)),
    (∀ p ∈ parts, p ≠ [] ∧ p.length ≤ 63 ∧ ∀ b ∈ p, b < 128) →
    ∃ endPos,
      RecordName.nameLoop (parts.length + 1)
          (pre ++ (parts.map (fun q => q.length :: q)).flatten ++ 0 :: post)
          pre.length acc
        = Res.ok (acc ++ parts, endPos) := by
  induction parts with
  | nil =>
    intro pre post acc _
    refine ⟨pre.length + 1, ?_⟩
    simp only [List.map_nil, List.flatten_nil, List.append_nil, List.length_nil]
    rw [nameLoop_succ, readU8_append_cons]
    simp
  | cons p ps ih =>
    intro pre post acc hp
    obtain ⟨hpne, hplen, hpascii⟩ := hp p (by simp)
    have hps : ∀ q ∈ ps, q ≠ [] ∧ q.length ≤ 63 ∧ ∀ b ∈ q, b < 128 :=
      fun q hq => hp q (by simp [hq])
    have hlen0 : p.length ≠ 0 := fun h => hpne (List.eq_nil_of_length_eq_zero h)
    have hcomp : p.length &&& COMPRESSION_SIGNIFIER = 0 :=
      land_compression_eq_zero p.length hplen
    have hval : isValidUtf8 p = true := isValidUtf8_of_ascii p hpascii
    have hbuf : pre ++ ((p :: ps).map (fun q => q.length :: q)).flatten ++ 0 :: post
        = pre ++ p.length :: (p ++ ((ps.map (fun q => q.length :: q)).flatten ++ 0 :: post)) := by
      simp
    have hlab : readLabelBytes
        (pre ++ p.length :: (p ++ ((ps.map (fun q => q.length :: q)).flatten ++ 0 :: post)))
        p.length (pre.length + 1)
        = Res.ok (p, pre.length + 1 + p.length) := by
      have h0 := readLabelBytes_exact p (pre ++ [p.length])
        ((ps.map (fun q => q.length :: q)).flatten ++ 0 :: post)
      simpa using h0
    obtain ⟨endPos, hrec⟩ := ih (pre ++ p.length :: p) post (acc ++ [p]) hps
    have hrec2 : RecordName.nameLoop (ps.length + 1)
        (pre ++ p.length :: (p ++ ((ps.map (fun q => q.length :: q)).flatten ++ 0 :: post)))
        (pre.length + 1 + p.length) (acc ++ [p])
        = Res.ok (acc ++ p :: ps, endPos) := by
      have hb2 : (pre ++ p.length :: p) ++ (ps.map (fun q => q.length :: q)).flatten ++ 0 :: post
          = pre ++ p.length :: (p ++ ((ps.map (fun q => q.length :: q)).flatten ++ 0 :: post)) := by
        simp
      have hl2 : (pre ++ p.length :: p).length = pre.length + 1 + p.length := by
        simp
        omega
      rw [hb2, hl2] at hrec
      simpa using hrec
    refine ⟨endPos, ?_⟩
    rw [hbuf]
    simp only [List.length_cons]
    rw [nameLoop_succ, readU8_append_cons]
    simp only [hlen0, if_false, hcomp, Nat.lt_irrefl, hlab, hval, if_true]
    simp only [hrec2]

/-- For an ASCII name whose parts are at most 63 bytes long, the
encoder's output is the plain label encoding: each part's true length
byte followed by its bytes, then the terminator. -/
theorem encode_clean (name : List Nat) (hascii : name.all (fun b => b < 128) = true)
    (hlabels : ∀ p ∈ splitOnDot name, p.length ≤ 63) :
    RecordName.encode name =
      Except.ok (((splitOnDot name).map (fun q => q.length :: q)).flatten ++ [0]) := by
  unfold RecordName.encode
  rw [if_pos hascii, foldl_append_eq_flatten]
  simp only [List.nil_append, Except.ok.injEq]
  congr 1
  congr 1
  apply List.map_congr_left
  intro p hp
  have hlen : p.length % 256 = p.length := Nat.mod_eq_of_lt (by have := hlabels p hp; omega)
  have hbytes : p.map (fun b => b % 256) = p := by
    conv_rhs => rw [← List.map_id p]
    apply List.map_congr_left
    intro b hb
    have hmem := mem_of_mem_splitOnDot name p b hp hb
    have hblt : b < 128 := by simpa using List.all_eq_true.mp hascii b hmem
    simp [Nat.mod_eq_of_lt (by omega : b < 256)]
  rw [hlen, hbytes]

/-- Claim C2, counterexample: the ASCII name of a single non-empty
64-byte label round-trips incorrectly.  Its length byte 64 has bit 6
set, which the decoder's `length & 0b1100_0000 > 0` test mistakes for
a compression pointer, so decoding fails with `ReadLength` instead of
returning the original text. -/
theorem c2_long_label_counterexample :
    RecordName.encode (List.replicate 64 97) = Except.ok (64 :: List.replicate 64 97 ++ [0])
  ∧ RecordName.readAndAdvance 66 (64 :: List.replicate 64 97 ++ [0]) 0
      = Res.err DnsError.ReadLength := by
  exact ⟨rfl, rfl⟩

/-- Claim C2 as amended: for every ASCII domain name composed of
non-empty dot-separated labels each at most 63 bytes long, encoding
and then decoding the resulting buffer from offset 0 returns exactly
the original text. -/
theorem c2_roundtrip (name : List Nat) (hascii : name.all (fun b => b < 128) = true)
    (hlabels : ∀ p ∈ splitOnDot name, p ≠ [] ∧ p.length ≤ 63) :
    ∃ enc, RecordName.encode name = Except.ok enc
      ∧ ∃ endPos, RecordName.readAndAdvance ((splitOnDot name).length + 2) enc 0
          = Res.ok (name, endPos) := by
  have henc := encode_clean name hascii (fun p hp => (hlabels p hp).2)
  refine ⟨_, henc, ?_⟩
  have hparts : ∀ p ∈ splitOnDot name, p ≠ [] ∧ p.length ≤ 63 ∧ ∀ b ∈ p, b < 128 := by
    intro p hp
    refine ⟨(hlabels p hp).1, (hlabels p hp).2, ?_⟩
    intro b hb
    have hmem := mem_of_mem_splitOnDot name p b hp hb
    simpa using List.all_eq_true.mp hascii b hmem
  obtain ⟨endPos, hloop⟩ := nameLoop_encoded (splitOnDot name) [] [] [] hparts
  refine ⟨endPos, ?_⟩
  rw [show (splitOnDot name).length + 2 = ((splitOnDot name).length + 1) + 1 from rfl,
      readAndAdvance_succ]
  simp only [List.nil_append, List.length_nil] at hloop
  rw [show ((splitOnDot name).map (fun q => q.length :: q)).flatten ++ [0]
      = ((splitOnDot name).map (fun q => q.length :: q)).flatten ++ 0 :: [] from rfl]
  rw [hloop]
  simp only [joinDot_splitOnDot]

/-- Claim C2 witness: the round trip at the concrete name `ab.c`. -/
theorem c2_roundtrip_witness :
    ∃ enc, RecordName.encode [97, 98, 46, 99] = Except.ok enc
      ∧ ∃ endPos, RecordName.readAndAdvance ((splitOnDot [97, 98, 46, 99]).length + 2) enc 0
          = Res.ok ([97, 98, 46, 99], endPos) :=
  c2_roundtrip [97, 98, 46, 99] (by decide) (by decide)

/-- Claim C8: for every domain name containing a non-ASCII character
(equivalently, a byte at or above 128) and every record type, a
resolution attempt fails with `QuerySerialization`, and the transport
is never invoked: no send and no receive event occurs in that run. -/
theorem c8_non_ascii_fails_before_transport (fuel : Nat) (chaCha : Nat → Nat → Nat)
    (domain : List Nat) (recordType : RecordType) (seed : Option Nat) (env : Env)
    (hfuel : 1 ≤ fuel) (hna : domain.all (fun b => b < 128) = false) :
    (Query.resolveWithDepth fuel chaCha domain recordType seed env).1
      = Res.err DnsError.QuerySerialization
  ∧ (Query.resolveWithDepth fuel chaCha domain recordType seed env).2.1 = [] := by
  obtain ⟨f, rfl⟩ : ∃ f, fuel = f + 1 := ⟨fuel - 1, by omega⟩
  have hser : ∀ idDraw, Query.serialize chaCha idDraw seed domain recordType
      = Except.error DnsError.InvalidByteInName := by
    intro idDraw
    unfold Query.serialize RecordName.encode
    simp [hna]
  have hperf : ∀ (ip : String) (env0 : Env), Query.perform f chaCha domain recordType seed
      ip env0
      = (Res.err DnsError.QuerySerialization, [],
          match seed with
          | none => { env0 with idDraws := env0.idDraws.tail }
          | some _ => env0) := by
    intro ip env0
    unfold Query.perform
    cases seed <;> simp [hser]
  have main : ∀ (ip : String) (env0 : Env),
      (Query.resolveLoop (f + 1) chaCha domain recordType seed ip env0).1
        = Res.err DnsError.QuerySerialization
      ∧ (Query.resolveLoop (f + 1) chaCha domain recordType seed ip env0).2.1 = [] := by
    intro ip env0
    rw [Query.resolveLoop, hperf]
    exact ⟨rfl, rfl⟩
  unfold Query.resolveWithDepth
  rcases hpick : rootPickStep chaCha seed env with ⟨entry, env1⟩
  exact main entry.1 env1

/-- Claim C8 witness: a concrete run at the one-byte non-ASCII domain
`[200]` performs no transport events and fails with
`QuerySerialization`. -/
theorem c8_non_ascii_witness :
    (Query.resolveWithDepth 1 (fun _ _ => 0) [200] RecordType.A none ⟨[], [], [], []⟩).1
      = Res.err DnsError.QuerySerialization
  ∧ (Query.resolveWithDepth 1 (fun _ _ => 0) [200] RecordType.A none ⟨[], [], [], []⟩).2.1
      = [] :=
  c8_non_ascii_fails_before_transport 1 (fun _ _ => 0) [200] RecordType.A none
    ⟨[], [], [], []⟩ (by decide) (by decide)

/-- A successful byte read is unchanged when the buffer is extended. -/
theorem readU8_mono (buf ext : List Nat) (pos : Nat) (r : Nat × Nat)
    (h : readU8 buf pos = some r) : readU8 (buf ++ ext) pos = some r := by
  unfold readU8 at h ⊢
  cases hb : buf[pos]? with
  | none => rw [hb] at h; exact Option.noConfusion h
  | some b =>
    rw [hb] at h
    have hlt : pos < buf.length := by
      by_contra hc
      rw [List.getElem?_eq_none (by omega)] at hb
      exact Option.noConfusion hb
    rw [List.getElem?_append_left hlt, hb]
    exact h

/-- A successful 16-bit read is unchanged when the buffer is extended. -/
theorem readU16be_mono (buf ext : List Nat) (pos : Nat) (r : Nat × Nat)
    (h : readU16be buf pos = some r) : readU16be (buf ++ ext) pos = some r := by
  unfold readU16be at h ⊢
  cases h0 : readU8 buf pos with
  | none => rw [h0] at h; exact Option.noConfusion h
  | some r0 =>
    rw [h0] at h
    rw [readU8_mono buf ext pos r0 h0]
    obtain ⟨b0, pos0⟩ := r0
    cases h1 : readU8 buf pos0 with
    | none => simp only [h1] at h; exact Option.noConfusion h
    | some r1 =>
      simp only [h1] at h
      simp only [readU8_mono buf ext pos0 r1 h1]
      exact h

/-- A successful 32-bit read is unchanged when the buffer is extended. -/
theorem readU32be_mono (buf ext : List Nat) (pos : Nat) (r : Nat × Nat)
    (h : readU32be buf pos = some r) : readU32be (buf ++ ext) pos = some r := by
  unfold readU32be at h ⊢
  cases h0 : readU16be buf pos with
  | none => rw [h0] at h; exact Option.noConfusion h
  | some r0 =>
    rw [h0] at h
    rw [readU16be_mono buf ext pos r0 h0]
    obtain ⟨v0, pos0⟩ := r0
    cases h1 : readU16be buf pos0 with
    | none => simp only [h1] at h; exact Option.noConfusion h
    | some r1 =>
      simp only [h1] at h
      simp only [readU16be_mono buf ext pos0 r1 h1]
      exact h

/-- A successful exact-length read is unchanged when the buffer is
extended. -/
theorem readExact_mono (buf ext : List Nat) (n pos : Nat) (r : List Nat × Nat)
    (h : readExact buf n pos = some r) : readExact (buf ++ ext) n pos = some r := by
  unfold readExact at h ⊢
  by_cases hle : pos + n ≤ buf.length
  · rw [if_pos hle] at h
    rw [if_pos (by simp; omega)]
    have hdrop : (buf ++ ext).drop pos = buf.drop pos ++ ext :=
      List.drop_append_of_le_length (by omega)
    have htake : (buf.drop pos ++ ext).take n = (buf.drop pos).take n :=
      List.take_append_of_le_length (by simp; omega)
    rw [hdrop, htake]
    exact h
  · rw [if_neg hle] at h
    exact Option.noConfusion h

/-- A successful label-bytes read is unchanged when the buffer is
extended. -/
theorem readLabelBytes_mono (buf ext : List Nat) (n : Nat) : ∀ (pos : Nat) (r : List Nat × Nat),
    readLabelBytes buf n pos = Res.ok r → readLabelBytes (buf ++ ext) n pos = Res.ok r := by
  induction n with
  | zero => intro pos r h; exact h
  | succ m ih =>
    intro pos r h
    unfold readLabelBytes at h ⊢
    cases h0 : readU8 buf pos with
    | none => rw [h0] at h; exact Res.noConfusion h
    | some r0 =>
      rw [h0] at h
      rw [readU8_mono buf ext pos r0 h0]
      obtain ⟨b, pos1⟩ := r0
      cases h1 : readLabelBytes buf m pos1 with
      | ok r1 =>
        simp only [h1] at h
        simp only [ih pos1 r1 h1]
        exact h
      | err e => simp only [h1] at h; exact Res.noConfusion h
      | oom => simp only [h1] at h; exact Res.noConfusion h

/-- One-step unfolding of `RecordName.readAndAdvanceCompressedBytes`
at positive fuel. -/
theorem readCompressed_succ (f len : Nat) (buf : List Nat) (pos : Nat) :
    RecordName.readAndAdvanceCompressedBytes (f + 1) len buf pos =
      match readU8 buf pos with
      | none => Res.err DnsError.DecompressReadByte
      | some (nextByte, pos1) =>
        match RecordName.readAndAdvance f buf ((len <<< 8) ||| nextByte) with
        | Res.ok (result, _) => Res.ok (result, pos1)
        | Res.err e => Res.err e
        | Res.oom => Res.oom := rfl

/-- A successful name decode — the whole mutual recursion: entry
point, label loop and decompression — is unchanged when the buffer is
extended past its end: a successful decode never inspects bytes beyond
those present. -/
theorem name_decode_mono (fuel : Nat) :
    (∀ (buf ext : List Nat) (pos : Nat) (r : List Nat × Nat),
      RecordName.readAndAdvance fuel buf pos = Res.ok r →
      RecordName.readAndAdvance fuel (buf ++ ext) pos = Res.ok r)
  ∧ (∀ (buf ext : List Nat) (pos : Nat) (parts : List (List Nat)) (r : List (List Nat) × Nat),
      RecordName.nameLoop fuel buf pos parts = Res.ok r →
      RecordName.nameLoop fuel (buf ++ ext) pos parts = Res.ok r)
  ∧ (∀ (len : Nat) (buf ext : List Nat) (pos : Nat) (r : List Nat × Nat),
      RecordName.readAndAdvanceCompressedBytes fuel len buf pos = Res.ok r →
      RecordName.readAndAdvanceCompressedBytes fuel len (buf ++ ext) pos = Res.ok r) := by
  induction fuel with
  | zero =>
    refine ⟨?_, ?_, ?_⟩
    · intro _ _ _ _ h; exact Res.noConfusion h
    · intro _ _ _ _ _ h; exact Res.noConfusion h
    · intro _ _ _ _ _ h; exact Res.noConfusion h
  | succ f ih =>
    obtain ⟨ihA, ihL, ihC⟩ := ih
    refine ⟨?_, ?_, ?_⟩
    · intro buf ext pos r h
      rw [readAndAdvance_succ] at h ⊢
      cases hl : RecordName.nameLoop f buf pos [] with
      | ok pr =>
        simp only [hl] at h
        simp only [ihL buf ext pos [] pr hl]
        exact h
      | err e => simp only [hl] at h; exact Res.noConfusion h
      | oom => simp only [hl] at h; exact Res.noConfusion h
    · intro buf ext pos parts r h
      rw [nameLoop_succ] at h ⊢
      cases h8 : readU8 buf pos with
      | none => rw [h8] at h; exact Res.noConfusion h
      | some lr =>
        rw [h8] at h
        rw [readU8_mono buf ext pos lr h8]
        obtain ⟨len, pos1⟩ := lr
        by_cases hz : len = 0
        · simp only [if_pos hz] at h
          simp only [if_pos hz]
          exact h
        · simp only [if_neg hz] at h
          simp only [if_neg hz]
          by_cases hcomp : 0 < len &&& COMPRESSION_SIGNIFIER
          · simp only [if_pos hcomp] at h
            simp only [if_pos hcomp]
            cases hc : RecordName.readAndAdvanceCompressedBytes f (len &&& 63) buf pos1 with
            | ok br =>
              simp only [hc] at h
              simp only [ihC (len &&& 63) buf ext pos1 br hc]
              exact h
            | err e => simp only [hc] at h; exact Res.noConfusion h
            | oom => simp only [hc] at h; exact Res.noConfusion h
          · simp only [if_neg hcomp] at h
            simp only [if_neg hcomp]
            cases hlab : readLabelBytes buf len pos1 with
            | ok br =>
              simp only [hlab] at h
              simp only [readLabelBytes_mono buf ext len pos1 br hlab]
              obtain ⟨bytes, pos2⟩ := br
              by_cases hv : isValidUtf8 bytes = true
              · simp only [if_pos hv] at h
                simp only [if_pos hv]
                exact ihL buf ext pos2 (parts ++ [bytes]) r h
              · simp only [if_neg hv] at h
                exact Res.noConfusion h
            | err e => simp only [hlab] at h; exact Res.noConfusion h
            | oom => simp only [hlab] at h; exact Res.noConfusion h
    · intro len buf ext pos r h
      rw [readCompressed_succ] at h ⊢
      cases h8 : readU8 buf pos with
      | none => rw [h8] at h; exact Res.noConfusion h
      | some nr =>
        rw [h8] at h
        rw [readU8_mono buf ext pos nr h8]
        obtain ⟨nextByte, pos1⟩ := nr
        cases ha : RecordName.readAndAdvance f buf ((len <<< 8) ||| nextByte) with
        | ok ar =>
          simp only [ha] at h
          simp only [ihA buf ext ((len <<< 8) ||| nextByte) ar ha]
          exact h
        | err e => simp only [ha] at h; exact Res.noConfusion h
        | oom => simp only [ha] at h; exact Res.noConfusion h

/-- A successful header decode is unchanged when the buffer is
extended. -/
theorem header_mono (buf ext : List Nat) (pos : Nat) (r : Header × Nat)
    (h : Header.readAndAdvance buf pos = Res.ok r) :
    Header.readAndAdvance (buf ++ ext) pos = Res.ok r := by
  unfold Header.readAndAdvance at h ⊢
  cases h0 : readU16be buf pos with
  | none => rw [h0] at h; exact Res.noConfusion h
  | some r0 =>
    rw [h0] at h
    rw [readU16be_mono buf ext pos r0 h0]
    obtain ⟨id, pos1⟩ := r0
    cases h1 : readU16be buf pos1 with
    | none => simp only [h1] at h; exact Res.noConfusion h
    | some r1 =>
      simp only [h1] at h
      simp only [readU16be_mono buf ext pos1 r1 h1]
      obtain ⟨flags, pos2⟩ := r1
      cases h2 : readU16be buf pos2 with
      | none => simp only [h2] at h; exact Res.noConfusion h
      | some r2 =>
        simp only [h2] at h
        simp only [readU16be_mono buf ext pos2 r2 h2]
        obtain ⟨nq, pos3⟩ := r2
        cases h3 : readU16be buf pos3 with
        | none => simp only [h3] at h; exact Res.noConfusion h
        | some r3 =>
          simp only [h3] at h
          simp only [readU16be_mono buf ext pos3 r3 h3]
          obtain ⟨na, pos4⟩ := r3
          cases h4 : readU16be buf pos4 with
          | none => simp only [h4] at h; exact Res.noConfusion h
          | some r4 =>
            simp only [h4] at h
            simp only [readU16be_mono buf ext pos4 r4 h4]
            obtain ⟨nauth, pos5⟩ := r4
            cases h5 : readU16be buf pos5 with
            | none => simp only [h5] at h; exact Res.noConfusion h
            | some r5 =>
              simp only [h5] at h
              simp only [readU16be_mono buf ext pos5 r5 h5]
              exact h

/-- A successful question decode is unchanged when the buffer is
extended. -/
theorem question_mono (fuel : Nat) (buf ext : List Nat) (pos : Nat) (r : Question × Nat)
    (h : Question.readAndAdvance fuel buf pos = Res.ok r) :
    Question.readAndAdvance fuel (buf ++ ext) pos = Res.ok r := by
  unfold Question.readAndAdvance at h ⊢
  cases hn : RecordName.readAndAdvance fuel buf pos with
  | ok nr =>
    rw [hn] at h
    rw [(name_decode_mono fuel).1 buf ext pos nr hn]
    obtain ⟨nm, pos1⟩ := nr
    cases ht : readU16be buf pos1 with
    | none => simp only [ht] at h; exact Res.noConfusion h
    | some tr =>
      simp only [ht] at h
      simp only [readU16be_mono buf ext pos1 tr ht]
      obtain ⟨tv, pos2⟩ := tr
      cases hrt : RecordType.fromValue tv with
      | none => simp only [hrt] at h; exact Res.noConfusion h
      | some rt =>
        simp only [hrt] at h
        simp only [hrt]
        cases hc : readU16be buf pos2 with
        | none => simp only [hc] at h; exact Res.noConfusion h
        | some cr =>
          simp only [hc] at h
          simp only [readU16be_mono buf ext pos2 cr hc]
          exact h
  | err e => rw [hn] at h; exact Res.noConfusion h
  | oom => rw [hn] at h; exact Res.noConfusion h

/-- A successful record decode is unchanged when the buffer is
extended. -/
theorem record_mono (fuel : Nat) (buf ext : List Nat) (pos : Nat) (r : Record × Nat)
    (h : Record.readAndAdvance fuel buf pos = Res.ok r) :
    Record.readAndAdvance fuel (buf ++ ext) pos = Res.ok r := by
  unfold Record.readAndAdvance at h ⊢
  cases hn : RecordName.readAndAdvance fuel buf pos with
  | ok nr =>
    rw [hn] at h
    rw [(name_decode_mono fuel).1 buf ext pos nr hn]
    obtain ⟨nm, pos1⟩ := nr
    cases ht : readU16be buf pos1 with
    | none => simp only [ht] at h; exact Res.noConfusion h
    | some tr =>
      simp only [ht] at h
      simp only [readU16be_mono buf ext pos1 tr ht]
      obtain ⟨tv, pos2⟩ := tr
      cases hrt : RecordType.fromValue tv with
      | none => simp only [hrt] at h; exact Res.noConfusion h
      | some rt =>
        simp only [hrt] at h
        simp only [hrt]
        cases hc : readU16be buf pos2 with
        | none => simp only [hc] at h; exact Res.noConfusion h
        | some cr =>
          simp only [hc] at h
          simp only [readU16be_mono buf ext pos2 cr hc]
          obtain ⟨cv, pos3⟩ := cr
          cases httl : readU32be buf pos3 with
          | none => simp only [httl] at h; exact Res.noConfusion h
          | some ttlr =>
            simp only [httl] at h
            simp only [readU32be_mono buf ext pos3 ttlr httl]
            obtain ⟨ttlv, pos4⟩ := ttlr
            cases hdl : readU16be buf pos4 with
            | none => simp only [hdl] at h; exact Res.noConfusion h
            | some dlr =>
              simp only [hdl] at h
              simp only [readU16be_mono buf ext pos4 dlr hdl]
              obtain ⟨dlv, pos5⟩ := dlr
              cases hd : readExact buf dlv pos5 with
              | none => simp only [hd] at h; exact Res.noConfusion h
              | some dr =>
                simp only [hd] at h
                simp only [readExact_mono buf ext dlv pos5 dr hd]
                exact h
  | err e => rw [hn] at h; exact Res.noConfusion h
  | oom => rw [hn] at h; exact Res.noConfusion h

/-- A successful counted decode loop is unchanged when each element
decode is. -/
theorem readCount_mono {α : Type} (rd rd2 : Nat → Res (α × Nat))
    (hrd : ∀ (pos : Nat) (r : α × Nat), rd pos = Res.ok r → rd2 pos = Res.ok r)
    (n : Nat) : ∀ (pos : Nat) (r : List α × Nat),
    readCount rd n pos = Res.ok r → readCount rd2 n pos = Res.ok r := by
  induction n with
  | zero => intro pos r h; exact h
  | succ m ih =>
    intro pos r h
    unfold readCount at h ⊢
    cases h0 : rd pos with
    | ok ar =>
      rw [h0] at h
      rw [hrd pos ar h0]
      obtain ⟨a, pos1⟩ := ar
      cases h1 : readCount rd m pos1 with
      | ok lr =>
        simp only [h1] at h
        simp only [ih pos1 lr h1]
        exact h
      | err e => simp only [h1] at h; exact Res.noConfusion h
      | oom => simp only [h1] at h; exact Res.noConfusion h
    | err e => rw [h0] at h; exact Res.noConfusion h
    | oom => rw [h0] at h; exact Res.noConfusion h

/-- Claim C10: packet parse never inspects bytes beyond the records
declared by the header counts: appending arbitrary trailing bytes to a
buffer whose decode succeeded leaves the parse result unchanged and
successful. -/
theorem c10_parse_ignores_trailing_bytes (fuel : Nat) (buf ext : List Nat) (pkt : Packet)
    (h : Packet.parse fuel buf = Res.ok pkt) :
    Packet.parse fuel (buf ++ ext) = Res.ok pkt := by
  unfold Packet.parse at h ⊢
  cases hh : Header.readAndAdvance buf 0 with
  | ok hr =>
    rw [hh] at h
    rw [header_mono buf ext 0 hr hh]
    obtain ⟨header, pos0⟩ := hr
    cases hq : readCount (Question.readAndAdvance fuel buf) header.numQuestions pos0 with
    | ok qr =>
      simp only [hq] at h
      simp only [readCount_mono (Question.readAndAdvance fuel buf)
        (Question.readAndAdvance fuel (buf ++ ext))
        (fun pos r hx => question_mono fuel buf ext pos r hx)
        header.numQuestions pos0 qr hq]
      obtain ⟨questions, pos1⟩ := qr
      cases han : readCount (Record.readAndAdvance fuel buf) header.numAnswers pos1 with
      | ok anr =>
        simp only [han] at h
        simp only [readCount_mono (Record.readAndAdvance fuel buf)
          (Record.readAndAdvance fuel (buf ++ ext))
          (fun pos r hx => record_mono fuel buf ext pos r hx)
          header.numAnswers pos1 anr han]
        obtain ⟨answers, pos2⟩ := anr
        cases hau : readCount (Record.readAndAdvance fuel buf) header.numAuthorities pos2 with
        | ok aur =>
          simp only [hau] at h
          simp only [readCount_mono (Record.readAndAdvance fuel buf)
            (Record.readAndAdvance fuel (buf ++ ext))
            (fun pos r hx => record_mono fuel buf ext pos r hx)
            header.numAuthorities pos2 aur hau]
          obtain ⟨authorities, pos3⟩ := aur
          cases had : readCount (Record.readAndAdvance fuel buf) header.numAdditionals pos3 with
          | ok adr =>
            simp only [had] at h
            simp only [readCount_mono (Record.readAndAdvance fuel buf)
              (Record.readAndAdvance fuel (buf ++ ext))
              (fun pos r hx => record_mono fuel buf ext pos r hx)
              header.numAdditionals pos3 adr had]
            exact h
          | err e => simp only [had] at h; exact Res.noConfusion h
          | oom => simp only [had] at h; exact Res.noConfusion h
        | err e => simp only [hau] at h; exact Res.noConfusion h
        | oom => simp only [hau] at h; exact Res.noConfusion h
      | err e => simp only [han] at h; exact Res.noConfusion h
      | oom => simp only [han] at h; exact Res.noConfusion h
    | err e => simp only [hq] at h; exact Res.noConfusion h
    | oom => simp only [hq] at h; exact Res.noConfusion h
  | err e => rw [hh] at h; exact Res.noConfusion h
  | oom => rw [hh] at h; exact Res.noConfusion h

/-- Claim C10 witness: a header-only packet still parses identically
after appending trailing garbage. -/
theorem c10_trailing_bytes_witness :
    Packet.parse 1 ([204, 71, 129, 128, 0, 0, 0, 0, 0, 0, 0, 0] ++ [7, 7, 7])
      = Res.ok { header := { id := 52295, flags := 33152, numQuestions := 0,
                             numAnswers := 0, numAuthorities := 0, numAdditionals := 0 },
                 questions := [], answers := [], authorities := [], additionals := [] } :=
  c10_parse_ignores_trailing_bytes 1 [204, 71, 129, 128, 0, 0, 0, 0, 0, 0, 0, 0] [7, 7, 7]
    { header := { id := 52295, flags := 33152, numQuestions := 0,
                  numAnswers := 0, numAuthorities := 0, numAdditionals := 0 },
      questions := [], answers := [], authorities := [], additionals := [] }
    (by decide)
